import Mathlib

/-!
Verification of the composition engine of the PuzzlePro sheet generator.

The definitions below are a shallow embedding of the TypeScript source:
`parseMaskIndices`, `getRatio` and the cell/mask drawing logic of `drawAsync`
(file src/unnamed/part_000), and the batch loop of `runGeneration`
(src/App.tsx).  JS numbers used for geometry are modelled as rationals,
JS array indices as naturals, image content abstractly.  Fallible JS
primitives (parseInt, toBlob) are modelled with Option.
-/

/-- JS regex `\s` class members relevant here (whitespace characters). -/
def isJsSpace (c : Char) : Bool :=
  c == ' ' || c == '\t' || c == '\n' || c == '\r' ||
  c == '\x0b' || c == '\x0c' || c == ' ' || c == '　' || c == '﻿'

/-- Separator class of the split regex `[,，、\s]+` in `parseMaskIndices`. -/
def isJsSplitSep (c : Char) : Bool :=
  c == ',' || c == '，' || c == '、' || isJsSpace c

/-- Split a character list on a separator class, merging adjacent separators
(the `+` in the regex) and producing only the non-empty runs, as
`String.prototype.split` does up to boundary empties, which the source
discards via `if (!part) return`. -/
def splitRunsAux (f : Char → Bool) : List Char → List Char → List (List Char)
  | cur, [] => if cur.isEmpty then [] else [cur.reverse]
  | cur, c :: cs =>
    if f c then
      if cur.isEmpty then splitRunsAux f [] cs
      else cur.reverse :: splitRunsAux f [] cs
    else splitRunsAux f (c :: cur) cs

/-- Top-level split on a separator class. -/
def splitRuns (f : Char → Bool) (cs : List Char) : List (List Char) :=
  splitRunsAux f [] cs

/-- Model of `String.prototype.trim`. -/
def jsTrim (cs : List Char) : List Char :=
  ((cs.dropWhile isJsSpace).reverse.dropWhile isJsSpace).reverse

/-- Decimal digit value, if any. -/
def decDigit (c : Char) : Option Nat :=
  if c.isDigit then some (c.toNat - 48) else none

/-- Hexadecimal digit value, if any. -/
def hexVal (c : Char) : Option Nat :=
  if c.isDigit then some (c.toNat - 48)
  else if 'a' ≤ c && c ≤ 'f' then some (c.toNat - 87)
  else if 'A' ≤ c && c ≤ 'F' then some (c.toNat - 55)
  else none

/-- Parse a maximal leading run of digits in the given base; none when the
run is empty (this is how `parseInt` stops at the first invalid character
and yields NaN when no digit was read). -/
def parseDigits (dv : Char → Option Nat) (base : Nat) (cs : List Char) : Option Nat :=
  let ds := cs.takeWhile (fun c => (dv c).isSome)
  if ds.isEmpty then none
  else some (ds.foldl (fun acc c => acc * base + ((dv c).getD 0)) 0)

/-- Body of `parseInt` after sign handling: a leading `0x`/`0X` selects
hexadecimal, otherwise decimal; trailing garbage is ignored. -/
def jsParseIntCore (sgn : Int) (cs : List Char) : Option Int :=
  match cs with
  | '0' :: c :: t =>
    if c == 'x' || c == 'X' then (parseDigits hexVal 16 t).map (fun n => sgn * (n : Int))
    else (parseDigits decDigit 10 ('0' :: c :: t)).map (fun n => sgn * (n : Int))
  | _ => (parseDigits decDigit 10 cs).map (fun n => sgn * (n : Int))

/-- Model of JS `parseInt(s)` (radix argument omitted, as in the source):
skip whitespace, optional sign, then a leading digit run; NaN is `none`. -/
def jsParseInt (cs0 : List Char) : Option Int :=
  match cs0.dropWhile isJsSpace with
  | '-' :: t => jsParseIntCore (-1) t
  | '+' :: t => jsParseIntCore 1 t
  | cs => jsParseIntCore 1 cs

/-- The inclusive ascending range `for (let k = a; k <= b; k++)`. -/
def intRangeAsc (a b : Int) : List Int :=
  (List.range (b - a + 1).toNat).map (fun k => a + (k : Int))

/-- Contribution of one token of the mask-index expression, following the
branches of `parseMaskIndices` in src/unnamed/part_000 lines 93-108:
trim; skip empty; normalize `~ — –` to `-`; a token containing `-` is
treated as a range when splitting on `-` gives exactly two parts that both
`parseInt`; otherwise the token contributes `parseInt(token)` when that is
not NaN. -/
def partContrib (part0 : List Char) : List Int :=
  let part := jsTrim part0
  if part.isEmpty then []
  else
    let standardPart := part.map (fun c => if c == '~' || c == '—' || c == '–' then '-' else c)
    if standardPart.contains '-' then
      match standardPart.splitOn '-' with
      | [s0, s1] =>
        match jsParseInt s0, jsParseInt s1 with
        | some s, some e => intRangeAsc (min s e) (max s e)
        | _, _ => []
      | _ => []
    else
      match jsParseInt standardPart with
      | some n => [n]
      | none => []

/-- Model of `parseMaskIndices` (src/unnamed/part_000 lines 90-111):
split on `[,，、\s]+`, then push each token's contribution in order. -/
def parseMaskIndices (input : String) : List Int :=
  (splitRuns isJsSplitSep input.toList).foldl (fun acc part => acc ++ partContrib part) []

/-- Token "is a single integer" in the literal sense of the specification:
an optional sign followed by one or more digits, nothing else. -/
def isDigitTok (cs : List Char) : Bool :=
  !cs.isEmpty && cs.all Char.isDigit

/-- Whole-token integer recognition (optional sign allowed). -/
def isIntTok (cs : List Char) : Bool :=
  match cs with
  | '-' :: t => isDigitTok t
  | '+' :: t => isDigitTok t
  | _ => isDigitTok cs

/-- Value of a token accepted by `isIntTok`. -/
def intTokVal (cs : List Char) : Int :=
  match cs with
  | '-' :: t => -((t.foldl (fun acc c => acc * 10 + (c.toNat - 48)) 0 : Nat) : Int)
  | '+' :: t => ((t.foldl (fun acc c => acc * 10 + (c.toNat - 48)) 0 : Nat) : Int)
  | _ => ((cs.foldl (fun acc c => acc * 10 + (c.toNat - 48)) 0 : Nat) : Int)

/-- Modelled from the spec: the per-token behaviour claimed for mask-index
parsing — a token that is a single integer contributes that integer, a
token of the form `A-B` (after normalizing em-dash, en-dash and tilde to a
hyphen) with both bounds integers contributes the inclusive range from the
smaller to the larger bound, and every other token contributes nothing. -/
def specTokContrib (tok : List Char) : List Int :=
  let n := tok.map (fun c => if c == '~' || c == '—' || c == '–' then '-' else c)
  if isIntTok n then [intTokVal n]
  else
    match n.splitOn '-' with
    | [a, b] =>
      if isIntTok a && isIntTok b then
        intRangeAsc (min (intTokVal a) (intTokVal b)) (max (intTokVal a) (intTokVal b))
      else []
    | _ => []

/-- Modelled from the spec: mask-index parsing as the claim states it. -/
def parseMaskIndicesSpec (input : String) : List Int :=
  (splitRuns isJsSplitSep input.toList).foldl (fun acc t => acc ++ specTokContrib t) []

/-- A JS number-or-absent value, as far as the settings fields need:
a finite numeric value, NaN, or undefined. -/
inductive JsVal where
  | num (q : ℚ)
  | nan
  | undef
deriving DecidableEq

/-- Model of `v || d` for a numeric `v`: the default replaces every falsy
value (0, NaN, undefined). -/
def jsOr (v : JsVal) (d : ℚ) : ℚ :=
  match v with
  | JsVal.num q => if q = 0 then d else q
  | JsVal.nan => d
  | JsVal.undef => d

/-- JS division on finite operands: division by zero is not finite. -/
def jsDiv (a b : ℚ) : JsVal :=
  if b = 0 then JsVal.nan else JsVal.num (a / b)

/-- Model of JS `parseFloat` restricted to optional sign, digits and one
decimal point, which covers every aspect-ratio literal the app uses
('0.5625', '0.75', '1', '1.333'); anything else is NaN. -/
def jsParseFloatCore (sgn : ℚ) (cs : List Char) : JsVal :=
  match parseDigits decDigit 10 cs with
  | none => JsVal.nan
  | some ip =>
    let rest := cs.dropWhile (fun c => (decDigit c).isSome)
    match rest with
    | '.' :: frac =>
      let fds := frac.takeWhile (fun c => (decDigit c).isSome)
      let fv : ℚ := (fds.foldl (fun acc c => acc * 10 + ((decDigit c).getD 0)) 0 : Nat)
      JsVal.num (sgn * ((ip : ℚ) + fv / ((10 : ℚ) ^ fds.length)))
    | _ => JsVal.num (sgn * (ip : ℚ))

/-- Model of JS `parseFloat` on a trimmed string. -/
def jsParseFloat (s : String) : JsVal :=
  match s.toList.dropWhile isJsSpace with
  | '-' :: t => jsParseFloatCore (-1) t
  | '+' :: t => jsParseFloatCore 1 t
  | cs => jsParseFloatCore 1 cs

/-- Model of `getRatio` (src/unnamed/part_000 lines 80-87): a non-custom
aspect ratio is parsed as a decimal; otherwise `customW` and `customH` are
defaulted through `||` to 1000 and 1500 and divided. -/
def getRatio (aspectRatio : String) (customW customH : JsVal) : JsVal :=
  if aspectRatio ≠ "custom" then jsParseFloat aspectRatio
  else jsDiv (jsOr customW 1000) (jsOr customH 1500)

/-- Destination rectangle of a `drawImage` call. -/
structure DestRect where
  dx : ℚ
  dy : ℚ
  dw : ℚ
  dh : ℚ
deriving DecidableEq

/-- Cover-fit destination rectangle for one cell, from `drawAsync`
(src/unnamed/part_000 lines 233-240): `iRatio = imgW/imgH`,
`cRatio = w/h`; a relatively wide image is drawn at the cell height and
centered horizontally, otherwise at the cell width and centered
vertically; the draw is clipped to the cell rectangle. -/
def coverFit (x y w h imgW imgH : ℚ) : DestRect :=
  let iRatio := imgW / imgH
  let cRatio := w / h
  if iRatio > cRatio then
    ⟨x - (h * iRatio - w) / 2, y, h * iRatio, h⟩
  else
    ⟨x, y - (w / iRatio - h) / 2, w, w / iRatio⟩

/-- Quality clamp of `runGeneration` (src/App.tsx lines 411-413):
`if (qVal < 10) qVal = 10; if (qVal > 100) qVal = 100`. -/
def clampQuality (q : Int) : Int :=
  let q1 := if q < 10 then 10 else q
  if q1 > 100 then 100 else q1

/-- Lossless-format selection, src/App.tsx line 414: `isPng = (qVal === 100)`
on the clamped value. -/
def isPngQ (q : Int) : Bool :=
  clampQuality q == 100

/-- Output MIME type, src/App.tsx line 415. -/
def mimeTypeOf (q : Int) : String :=
  if isPngQ q then "image/png" else "image/jpeg"

/-- Third argument of `canvas.toBlob` (src/App.tsx line 465):
`isPng ? undefined : qVal / 100` on the clamped value. -/
def toBlobQualityArg (q : Int) : Option ℚ :=
  if isPngQ q then none else some ((clampQuality q : ℚ) / 100)

/-- Loaded-image state as far as the drawing code inspects it. -/
structure ImgSt where
  complete : Bool
  naturalWidth : Nat
  imgW : ℚ
  imgH : ℚ
deriving DecidableEq

/-- A point of the sheet. -/
structure Pt where
  px : ℚ
  py : ℚ
deriving DecidableEq

/-- A stroked line segment. -/
structure Seg where
  segA : Pt
  segB : Pt
deriving DecidableEq

/-- What the mask/sticker step of `drawAsync` paints on one cell. -/
inductive MaskDraw where
  | stickerDraw (r : DestRect)
  | lineDraw (color : String) (width : ℚ) (cap : String) (segs : List Seg)
  | nothing
deriving DecidableEq

/-- The mask/sticker step for one cell (src/unnamed/part_000 lines
293-315).  `targeted` stands for `maskIndices.includes(currentNum)`.
When a sticker object exists it is drawn only if it is complete with a
positive natural width; the fallback diagonal mark is drawn only when no
sticker object exists at all (`else if (!stickerImgObj)`). -/
def maskCellDraw (applyMask targeted : Bool) (sticker : Option ImgSt)
    (lineStyle maskColor : String) (maskWidth stickerSize stickerX stickerY : ℚ)
    (x y w h : ℚ) : MaskDraw :=
  if applyMask && targeted then
    match sticker with
    | some s =>
      if s.complete && decide (0 < s.naturalWidth) then
        let sizePct := stickerSize / 100
        let xPct := stickerX / 100
        let yPct := stickerY / 100
        let sw := w * sizePct
        let sh := sw * (s.imgH / s.imgW)
        MaskDraw.stickerDraw ⟨x + w * xPct - sw / 2, y + h * yPct - sh / 2, sw, sh⟩
      else MaskDraw.nothing
    | none =>
      MaskDraw.lineDraw maskColor (maskWidth * (w / 500) * 5) "round"
        (if lineStyle = "cross" then
          [⟨⟨x + w * 0.2, y + h * 0.2⟩, ⟨x + w * 0.8, y + h * 0.8⟩⟩,
           ⟨⟨x + w * 0.8, y + h * 0.2⟩, ⟨x + w * 0.2, y + h * 0.8⟩⟩]
         else
          [⟨⟨x + w * 0.2, y + h * 0.8⟩, ⟨x + w * 0.8, y + h * 0.2⟩⟩])
  else MaskDraw.nothing

/-- The sticker source actually handed to `drawAsync` (src/App.tsx line 443):
`settings.maskMode === 'image' ? settings.stickerImgUrl : null`. -/
def effectiveStickerUrl (maskMode : String) (stickerImgUrl : Option String) : Option String :=
  if maskMode = "image" then stickerImgUrl else none

/-- The sticker image object created by `drawAsync` (src/unnamed/part_000
lines 162-171): one is created iff the url is truthy; `load` gives the
state it settles in (onerror also resolves). -/
def stickerObjOf (load : String → ImgSt) (url : Option String) : Option ImgSt :=
  match url with
  | some u => if u = "" then none else some (load u)
  | none => none

/-- Result of the robust per-cell image load `loadImg` (src/unnamed/part_000
lines 199-216). -/
inductive LoadResult where
  | ok (attempt : Nat)
  | broken
deriving DecidableEq

/-- Model of `loadImg(src, retries)`: attempt number `attempt` either
succeeds, or — when retries remain — the same source is reassigned after a
200 ms delay and tried again; with the budget exhausted the image is
marked broken instead of raising.  The second component collects the
delays (in ms) of retries actually scheduled. -/
def loadImgRun (ok : Nat → Bool) (attempt : Nat) : Nat → LoadResult × List Nat
  | 0 => if ok attempt then (LoadResult.ok attempt, []) else (LoadResult.broken, [])
  | r + 1 =>
    if ok attempt then (LoadResult.ok attempt, [])
    else
      let rec' := loadImgRun ok (attempt + 1) r
      (rec'.1, 200 :: rec'.2)

/-- What the per-cell try block paints (src/unnamed/part_000 lines 222-242). -/
inductive CellRender where
  | placeholder (fill : String) (glyph : String)
  | drawImage (r : DestRect)
deriving DecidableEq

/-- The strict validity check and placeholder fallback of the cell draw
(src/unnamed/part_000 lines 224-241): a missing, broken, zero-dimension or
incomplete image gives a flat `#f0f0f0` fill with a `!` glyph, otherwise
the image is drawn cover-fit. -/
def renderCell (img : Option (Bool × ImgSt)) (naturalHeight : Nat) (x y w h : ℚ) : CellRender :=
  match img with
  | none => CellRender.placeholder "#f0f0f0" "!"
  | some (isBroken, st) =>
    if isBroken || st.naturalWidth == 0 || naturalHeight == 0 || !st.complete then
      CellRender.placeholder "#f0f0f0" "!"
    else
      CellRender.drawImage (coverFit x y w h st.imgW st.imgH)

/-!
Scheduling model.  `runGeneration` polls the cancellation predicate
`() => cancelRef.current` at fixed points; within one run the predicate is
monotone (it is reset to false at start and only ever set to true).  We
therefore model the predicate by the index `T` of the first poll that
observes cancellation: a poll is a read of the predicate, polls are
numbered from 0 in the order they occur, and the poll with number `p`
reads true iff `T ≤ p`.  `T` larger than every poll number models a run
that is never cancelled.
-/

/-- The per-cell loop of `drawAsync` (src/unnamed/part_000 lines 185-316)
as far as scheduling is concerned: for each cell one poll before the
acquisition (line 186) and one immediately after it (line 220); only after
both polls read false is the cell drawn onto the sheet.  Returns the
updated poll counter and the cells drawn so far (the canvas content). -/
def drawCells (T : Nat) : Nat → List α → Nat × List α
  | p, [] => (p, [])
  | p, a :: rest =>
    if T ≤ p then (p + 1, [])
    else if T ≤ p + 1 then (p + 2, [])
    else
      let r := drawCells T (p + 2) rest
      (r.1, a :: r.2)

/-- `drawAsync` as far as scheduling is concerned: the poll at its entry
(src/unnamed/part_000 line 130) followed by the per-cell loop. -/
def drawA (T p : Nat) (imgs : List α) : Nat × List α :=
  if T ≤ p then (p + 1, []) else drawCells T (p + 1) imgs

/-- The batch loop of `runGeneration` (src/App.tsx lines 425-473), with the
encoder boundary `enc` (`canvas.toBlob`, which yields `none` on an encode
failure): per batch a poll at the loop head (line 426), the `drawAsync`
polls, and a poll before encoding (line 462); a successfully encoded blob
is pushed (`if (blob) tempBlobs.push(blob)`), a failed encode is skipped
and the loop continues.  Returns the final poll counter and the artifact
list `tempBlobs`. -/
def runBatchesP (enc : List α → Option β) (T : Nat) : Nat → List (List α) → Nat × List β
  | p, [] => (p, [])
  | p, bat :: rest =>
    if T ≤ p then (p + 1, [])
    else
      let d := drawA T (p + 1) bat
      if T ≤ d.1 then (d.1 + 1, [])
      else
        let r := runBatchesP enc T (d.1 + 1) rest
        match enc d.2 with
        | some art => (r.1, art :: r.2)
        | none => (r.1, r.2)

/-- The artifact sequence (`tempBlobs`) produced by a run. -/
def runBatches (enc : List α → Option β) (T p : Nat) (batches : List (List α)) : List β :=
  (runBatchesP enc T p batches).2

/-- `Math.ceil(n / m)` on naturals. -/
def ceilDiv (n m : Nat) : Nat :=
  (n + m - 1) / m

/-- The batch slices of `runGeneration`:
`totalBatches = Math.ceil(targets.length / batchSize)` (src/App.tsx line
416) and `currentImgs = targets.slice(b*batchSize, min((b+1)*batchSize,
targets.length))` (line 432). -/
def chunksOf (bs : Nat) (l : List α) : List (List α) :=
  (List.range (ceilDiv l.length bs)).map (fun b => (l.drop (b * bs)).take bs)

/-- A whole run: chunk the targets and drive the batch loop from poll 0. -/
def runGeneration (enc : List α → Option β) (T bs : Nat) (targets : List α) : List β :=
  runBatches enc T 0 (chunksOf bs targets)

/-- The caller-visible result: `setGeneratedBlobs(tempBlobs)` is executed
only when `!cancelRef.current` still holds after the loop (src/App.tsx
line 475); otherwise the result state keeps the empty list set at line
388.  The final read happens after all loop polls. -/
def runGenerationSurfaced (enc : List α → Option β) (T bs : Nat) (targets : List α) : List β :=
  let r := runBatchesP enc T 0 (chunksOf bs targets)
  if T ≤ r.1 then [] else r.2

/-- Number of polls a batch consumes when processed to completion:
loop head + `drawAsync` entry + two per cell + one before encoding. -/
def pollsOfBatch (bat : List α) : Nat :=
  2 * bat.length + 3

/-- Polls consumed by a list of completed batches. -/
def cumPolls (batches : List (List α)) : Nat :=
  (batches.map pollsOfBatch).sum

/-- The repack pre-pass (src/App.tsx line 404):
`targets.filter((_, i) => !maskIndicesArr.includes(startNum + i))`. -/
def repackTargets (targets : List α) (startNum : Int) (mask : List Int) : List α :=
  ((targets.enum.filter (fun p => !(mask.contains (startNum + (p.1 : Int))))).map Prod.snd)

/-- Numbers drawn on one sheet (src/unnamed/part_000 line 195):
`currentNum = startNum + globalOffset + i` for each cell index `i`. -/
def sheetNumbers (startNum : Int) (globalOffset : Nat) (cnt : Nat) : List Int :=
  (List.range cnt).map (fun i => startNum + ((globalOffset + i : Nat) : Int))

/-- Numbers drawn across the batches of a run; `globalOffset` advances by
`batchSize` per batch (`b * batchSize`, src/App.tsx line 454). -/
def runNumbersAux (startNum : Int) (bs : Nat) : Nat → List (List α) → List Int
  | _, [] => []
  | off, bat :: rest =>
    sheetNumbers startNum off bat.length ++ runNumbersAux startNum bs (off + bs) rest

/-- All numbers drawn during a run over the given (already filtered)
target list. -/
def runNumbers (startNum : Int) (bs : Nat) (l : List α) : List Int :=
  runNumbersAux startNum bs 0 (chunksOf bs l)

/-- Batch plan of a run: for each batch its image count and the row count
handed to `drawAsync`, `Math.ceil(currentImgs.length / cols)`
(src/App.tsx lines 449, 416, 432). -/
def batchPlan (cols groupRows n : Nat) : List (Nat × Nat) :=
  (chunksOf (cols * groupRows) (List.range n)).map (fun c => (c.length, ceilDiv c.length cols))

/-- An encoder that fails on the first sheet of the two-batch
counterexample run and succeeds elsewhere. -/
def encFailFirst : List Nat → Option (List Nat) :=
  fun s => if s = [0, 1] then none else some s

/-- A sticker object that exists but never finished loading. -/
def brokenSticker : ImgSt :=
  ⟨false, 0, 1, 1⟩

/-- A fully uncancelled cell loop draws every cell and consumes two polls
per cell. -/
theorem drawCells_complete {α : Type _} (l : List α) : ∀ (T p : Nat),
    p + 2 * l.length ≤ T → drawCells T p l = (p + 2 * l.length, l) := by
  induction l with
  | nil => intro T p h; simp [drawCells]
  | cons a rest ih =>
    intro T p h
    simp only [List.length_cons] at h
    have h1 : ¬ T ≤ p := by omega
    have h2 : ¬ T ≤ p + 1 := by omega
    have hr := ih T (p + 2) (by omega)
    simp only [drawCells, if_neg h1, if_neg h2, hr, List.length_cons]
    refine Prod.ext ?_ rfl
    simp; omega

/-- The cell loop either completes, or it stopped at a poll that read
true; its final counter never exceeds the completed count. -/
theorem drawCells_cases {α : Type _} (l : List α) : ∀ (T p : Nat),
    drawCells T p l = (p + 2 * l.length, l) ∨
      (T ≤ (drawCells T p l).1 ∧ (drawCells T p l).1 ≤ p + 2 * l.length) := by
  induction l with
  | nil => intro T p; left; simp [drawCells]
  | cons a rest ih =>
    intro T p
    by_cases h1 : T ≤ p
    · right
      simp only [drawCells, if_pos h1, List.length_cons]
      exact ⟨by omega, by omega⟩
    · by_cases h2 : T ≤ p + 1
      · right
        simp only [drawCells, if_neg h1, if_pos h2, List.length_cons]
        exact ⟨by omega, by omega⟩
      · rcases ih T (p + 2) with hc | hc
        · left
          simp only [drawCells, if_neg h1, if_neg h2, hc, List.length_cons]
          refine Prod.ext ?_ rfl
          simp; omega
        · right
          simp only [drawCells, if_neg h1, if_neg h2, List.length_cons]
          exact ⟨hc.1, by omega⟩

/-- An uncancelled `drawAsync` draws the whole sheet and consumes
`2 * cells + 1` polls. -/
theorem drawA_complete {α : Type _} (l : List α) (T p : Nat)
    (h : p + 2 * l.length + 1 ≤ T) : drawA T p l = (p + 2 * l.length + 1, l) := by
  have h1 : ¬ T ≤ p := by omega
  rw [drawA, if_neg h1, drawCells_complete l T (p + 1) (by omega)]
  refine Prod.ext ?_ rfl
  simp; omega

/-- `drawAsync` either completes or was cancelled at one of its polls. -/
theorem drawA_cases {α : Type _} (l : List α) (T p : Nat) :
    drawA T p l = (p + 2 * l.length + 1, l) ∨
      (T ≤ (drawA T p l).1 ∧ (drawA T p l).1 ≤ p + 2 * l.length + 1) := by
  by_cases h1 : T ≤ p
  · right
    rw [drawA, if_pos h1]
    exact ⟨by omega, by omega⟩
  · rw [drawA, if_neg h1]
    rcases drawCells_cases l T (p + 1) with hc | hc
    · left
      rw [hc]
      refine Prod.ext ?_ rfl
      simp; omega
    · right
      exact ⟨hc.1, by omega⟩

/-- Unfolding lemma for the poll count of a batch list. -/
theorem cumPolls_cons {α : Type _} (bat : List α) (rest : List (List α)) :
    cumPolls (bat :: rest) = 2 * bat.length + 3 + cumPolls rest := by
  simp [cumPolls, pollsOfBatch]

/-- A run whose cancellation is first observed only after every poll of
the batch list processes every batch and encodes exactly the successful
blobs, in order. -/
theorem runBatchesP_complete {α β : Type _} (enc : List α → Option β) (T : Nat) :
    ∀ (batches : List (List α)) (p : Nat), p + cumPolls batches ≤ T →
      runBatchesP enc T p batches = (p + cumPolls batches, batches.filterMap enc) := by
  intro batches
  induction batches with
  | nil => intro p h; simp [runBatchesP, cumPolls]
  | cons bat rest ih =>
    intro p h
    rw [cumPolls_cons] at h
    have h1 : ¬ T ≤ p := by omega
    have hd := drawA_complete bat T (p + 1) (by omega)
    have h2 : ¬ T ≤ p + 1 + 2 * bat.length + 1 := by omega
    have hr := ih (p + 1 + 2 * bat.length + 1 + 1) (by omega)
    simp only [runBatchesP, if_neg h1]
    rw [hd]
    dsimp only
    rw [if_neg h2, hr, cumPolls_cons, List.filterMap_cons]
    cases henc : enc bat <;> dsimp only <;> refine Prod.ext ?_ ?_ <;>
      simp [henc] <;> omega

/-- The cancellation theorem at poll granularity: if the first true poll
falls among the polls of batch `k` (1-based), the run returns exactly the
blobs of the first `k - 1` batches, each encoded from a fully drawn
sheet, and the final cancellation read after the loop reads true. -/
theorem runBatchesP_cancel {α β : Type _} (enc : List α → Option β) (T : Nat) :
    ∀ (batches : List (List α)) (p k : Nat), 1 ≤ k → k ≤ batches.length →
      p + cumPolls (batches.take (k - 1)) ≤ T → T < p + cumPolls (batches.take k) →
      (runBatchesP enc T p batches).2 = (batches.take (k - 1)).filterMap enc ∧
        T ≤ (runBatchesP enc T p batches).1 := by
  intro batches
  induction batches with
  | nil =>
    intro p k hk1 hk2 _ _
    simp at hk2
    omega
  | cons bat rest ih =>
    intro p k hk1 hk2 h3 h4
    match k with
    | 1 =>
      simp only [List.take_zero, cumPolls, List.map_nil, List.sum_nil, Nat.add_zero] at h3
      have e4 : (bat :: rest).take 1 = [bat] := rfl
      rw [e4, cumPolls_cons] at h4
      simp only [cumPolls, List.map_nil, List.sum_nil, Nat.add_zero] at h4
      by_cases h1 : T ≤ p
      · simp only [runBatchesP, if_pos h1]
        exact ⟨rfl, by omega⟩
      · have hTd : T ≤ (drawA T (p + 1) bat).1 := by
          rcases drawA_cases bat T (p + 1) with hc | hc
          · rw [hc]; simp; omega
          · exact hc.1
        simp only [runBatchesP, if_neg h1, if_pos hTd]
        exact ⟨rfl, by omega⟩
    | (k' + 2) =>
      have hlen : k' + 1 ≤ rest.length := by
        simp only [List.length_cons] at hk2; omega
      have e3 : (bat :: rest).take (k' + 2 - 1) = bat :: rest.take k' := rfl
      rw [e3, cumPolls_cons] at h3
      have e4 : (bat :: rest).take (k' + 2) = bat :: rest.take (k' + 1) := rfl
      rw [e4, cumPolls_cons] at h4
      have h1 : ¬ T ≤ p := by omega
      have hd := drawA_complete bat T (p + 1) (by omega)
      have h2 : ¬ T ≤ p + 1 + 2 * bat.length + 1 := by omega
      have hr := ih (p + 1 + 2 * bat.length + 1 + 1) (k' + 1) (by omega) hlen
        (by simp only [Nat.add_sub_cancel]; omega) (by omega)
      simp only [Nat.add_sub_cancel] at hr
      simp only [runBatchesP, if_neg h1]
      rw [hd]
      dsimp only
      rw [if_neg h2, e3, List.filterMap_cons]
      cases henc : enc bat <;> dsimp only <;>
        exact ⟨by rw [hr.1], hr.2⟩

/-- There are no batches over an empty target list. -/
theorem chunksOf_nil {α : Type _} (bs : Nat) : chunksOf bs ([] : List α) = [] := by
  have h : ceilDiv 0 bs = 0 := by
    unfold ceilDiv
    match bs with
    | 0 => rfl
    | b + 1 => exact Nat.div_eq_of_lt (by omega)
  simp [chunksOf, h]

/-- The slice decomposition of `runGeneration`: the first batch takes the
first `bs` targets and the remaining batches chunk the rest. -/
theorem chunksOf_cons {α : Type _} (bs : Nat) (l : List α) (hbs : 0 < bs) (hl : l ≠ []) :
    chunksOf bs l = l.take bs :: chunksOf bs (l.drop bs) := by
  have hn : 0 < l.length := List.length_pos.mpr hl
  have hceil : ceilDiv l.length bs = ceilDiv (l.length - bs) bs + 1 := by
    unfold ceilDiv
    have e1 : l.length + bs - 1 = (l.length - 1) + bs := by omega
    rw [e1, Nat.add_div_right _ hbs]
    by_cases hnb : l.length ≤ bs
    · have e2 : l.length - bs = 0 := by omega
      rw [e2]
      have e3 : (l.length - 1) / bs = 0 := Nat.div_eq_of_lt (by omega)
      have e4 : (0 + bs - 1) / bs = 0 := Nat.div_eq_of_lt (by omega)
      omega
    · have e2 : l.length - bs + bs - 1 = (l.length - 1 - bs) + bs := by omega
      rw [e2, Nat.add_div_right _ hbs]
      have e3 : l.length - 1 = (l.length - 1 - bs) + bs := by omega
      conv_lhs => rw [e3, Nat.add_div_right _ hbs]
  unfold chunksOf
  rw [List.length_drop, hceil, List.range_succ_eq_map]
  simp only [List.map_cons, List.map_map, Nat.zero_mul, List.drop_zero]
  refine congrArg₂ List.cons rfl ?_
  refine List.map_congr_left ?_
  intro b _
  simp only [Function.comp_apply, List.drop_drop]
  congr 2
  rw [Nat.succ_mul, Nat.mul_comm]
  exact Nat.add_comm _ _

/-- Numbering with a shifted global offset equals numbering with the
offset folded into the start number. -/
theorem runNumbersAux_shift {α : Type _} :
    ∀ (batches : List (List α)) (startNum : Int) (bs off : Nat),
      runNumbersAux startNum bs off batches
        = runNumbersAux (startNum + (off : Int)) bs 0 batches := by
  intro batches
  induction batches with
  | nil => intro S bs off; rfl
  | cons bat rest ih =>
    intro S bs off
    show sheetNumbers S off bat.length ++ runNumbersAux S bs (off + bs) rest
      = sheetNumbers (S + (off : Int)) 0 bat.length ++ runNumbersAux (S + (off : Int)) bs (0 + bs) rest
    rw [ih S bs (off + bs), ih (S + (off : Int)) bs (0 + bs)]
    refine congrArg₂ (· ++ ·) ?_ ?_
    · unfold sheetNumbers
      refine List.map_congr_left ?_
      intro i _
      push_cast
      ring
    · have e : S + ((off + bs : Nat) : Int) = S + (off : Int) + ((0 + bs : Nat) : Int) := by
        push_cast; ring
      rw [e]

/-- The numbers drawn over a run on a list are contiguous from the start
number: the per-batch formula `startNum + b*batchSize + i` visits exactly
`startNum, startNum+1, ...` in order. -/
theorem runNumbers_eq_fuel {α : Type _} :
    ∀ (fuel : Nat) (l : List α) (startNum : Int) (bs : Nat), l.length ≤ fuel → 0 < bs →
      runNumbers startNum bs l
        = (List.range l.length).map (fun j : Nat => startNum + (j : Int)) := by
  intro fuel
  induction fuel with
  | zero =>
    intro l S bs hle _
    have : l = [] := List.eq_nil_of_length_eq_zero (by omega)
    subst this
    rw [runNumbers, chunksOf_nil]
    rfl
  | succ fuel ih =>
    intro l S bs hle hbs
    by_cases hl : l = []
    · subst hl
      rw [runNumbers, chunksOf_nil]
      rfl
    · rw [runNumbers, chunksOf_cons bs l hbs hl]
      show sheetNumbers S 0 (l.take bs).length ++ runNumbersAux S bs (0 + bs) (chunksOf bs (l.drop bs))
        = (List.range l.length).map (fun j : Nat => S + (j : Int))
      have hdrop : (l.drop bs).length ≤ fuel := by
        rw [List.length_drop]
        have : 0 < l.length := List.length_pos.mpr hl
        omega
      have hrec : runNumbersAux S bs (0 + bs) (chunksOf bs (l.drop bs))
          = (List.range (l.drop bs).length).map
              (fun j : Nat => S + ((0 + bs : Nat) : Int) + (j : Int)) := by
        rw [runNumbersAux_shift, ← runNumbers]
        exact ih (l.drop bs) (S + ((0 + bs : Nat) : Int)) bs hdrop hbs
      rw [hrec]
      rw [List.length_take, List.length_drop]
      have hsheet : sheetNumbers S 0 (min bs l.length)
          = (List.range (min bs l.length)).map (fun j : Nat => S + (j : Int)) := by
        unfold sheetNumbers
        refine List.map_congr_left ?_
        intro i _
        push_cast
        ring
      rw [hsheet]
      have hsplit : l.length = min bs l.length + (l.length - bs) := by omega
      conv_rhs => rw [hsplit, List.range_add]
      rw [List.map_append, List.map_map]
      refine congrArg₂ (· ++ ·) rfl ?_
      refine List.map_congr_left ?_
      intro j hj
      have hjlt : j < l.length - bs := List.mem_range.mp hj
      have hmin : min bs l.length = bs := by omega
      simp only [Function.comp_apply, hmin]
      push_cast
      ring

/-- Filtered enumeration length: dropping the enumerated pairs whose index
satisfies `P` removes exactly the count of such indices. -/
theorem enumFrom_filter_length {α : Type _} (P : Nat → Bool) :
    ∀ (l : List α) (n : Nat),
      ((l.enumFrom n).filter (fun p => !(P p.1))).length
        + ((List.range' n l.length).filter (fun i => P i)).length = l.length := by
  intro l
  induction l with
  | nil => intro n; rfl
  | cons a t ih =>
    intro n
    rw [List.enumFrom_cons, List.length_cons, List.range'_succ]
    have hih := ih (n + 1)
    by_cases hP : P n
    · simp only [List.filter_cons]
      simp [hP]
      omega
    · simp only [List.filter_cons]
      simp [hP]
      omega

/-- Accumulating pushes over all tokens equals the concatenation of the
per-token contributions. -/
theorem foldl_append_contrib {α β : Type _} (f : α → List β) :
    ∀ (l : List α) (acc : List β),
      l.foldl (fun a p => a ++ f p) acc = acc ++ l.flatMap f := by
  intro l
  induction l with
  | nil => intro acc; simp
  | cons a t ih =>
    intro acc
    simp only [List.foldl_cons, List.flatMap_cons, ih, List.append_assoc]

/-- Claim C2 is false as stated: the token `-3` is a single integer yet
contributes nothing (the hyphen routes it to the range branch, where the
empty left part fails to parse), and the token `1a` is not a single
integer yet contributes 1 (JS `parseInt` ignores trailing garbage).  The
code's `parseMaskIndices` therefore differs from the claimed parse on
these inputs. -/
theorem claim_C2_counterexample :
    parseMaskIndicesSpec "-3" = [-3] ∧ parseMaskIndices "-3" = [] ∧
    parseMaskIndicesSpec "1a" = [] ∧ parseMaskIndices "1a" = [1] ∧
    parseMaskIndices "-3" ≠ parseMaskIndicesSpec "-3" ∧
    parseMaskIndices "1a" ≠ parseMaskIndicesSpec "1a" := by
  refine ⟨by decide, by decide, by decide, by decide, by decide, by decide⟩

/-- Claim C2 as amended: mask-index parsing is total; the input splits on
ASCII/full-width comma, Chinese enumeration comma, and whitespace; each
token contributes independently, per `partContrib`: a token containing a
range separator (hyphen, or em-dash/en-dash/tilde normalized to a hyphen)
contributes the inclusive range from the smaller to the larger bound when
splitting it on the hyphen yields exactly two parts both accepted by JS
`parseInt` (leading-prefix semantics), and otherwise nothing — so a lone
negative integer contributes nothing; a hyphen-free token contributes its
`parseInt` value when that is not NaN, so trailing garbage after a leading
integer is ignored; the spec's concrete examples all hold. -/
theorem claim_C2_amended :
    (∀ s : String,
      parseMaskIndices s = (splitRuns isJsSplitSep s.toList).flatMap partContrib) ∧
    parseMaskIndices "1-3,5" = [1, 2, 3, 5] ∧
    parseMaskIndices "5-3" = [3, 4, 5] ∧
    parseMaskIndices "a,1,,2" = [1, 2] ∧
    parseMaskIndices "1, 3-5，8" = [1, 3, 4, 5, 8] ∧
    parseMaskIndices "1a" = [1] ∧
    parseMaskIndices "-3" = [] := by
  refine ⟨?_, by decide, by decide, by decide, by decide, by decide, by decide⟩
  intro s
  rw [parseMaskIndices, foldl_append_contrib]
  rfl

/-- Claim C7 is false as stated for qualities below 10: the run clamps the
quality to at least 10 before encoding, so quality 5 encodes a JPEG at
parameter 10/100, not 5/100. -/
theorem claim_C7_counterexample :
    mimeTypeOf 5 = "image/jpeg" ∧
    toBlobQualityArg 5 = some (10 / 100) ∧
    ((10 : ℚ) / 100 ≠ (5 : ℚ) / 100) := by
  refine ⟨rfl, ?_, by norm_num⟩
  norm_num [toBlobQualityArg, isPngQ, clampQuality]

/-- Claim C7 as amended: for a quality value in 1–100, exactly quality 100
selects the lossless PNG format; any other value selects JPEG, but the
encoder parameter is the clamped quality `max(quality,10)/100` rather than
`quality/100`. -/
theorem claim_C7_amended (q : Int) (h1 : 1 ≤ q) (h2 : q ≤ 100) :
    (mimeTypeOf q = "image/png" ↔ q = 100) ∧
    (q ≠ 100 →
      mimeTypeOf q = "image/jpeg" ∧
      toBlobQualityArg q = some (((max q 10 : Int) : ℚ) / 100)) := by
  have hcl : clampQuality q = max q 10 := by
    simp only [clampQuality]
    split_ifs <;> omega
  constructor
  · constructor
    · intro hm
      by_contra hq
      have hne : clampQuality q ≠ 100 := by rw [hcl]; omega
      have : isPngQ q = false := by
        unfold isPngQ
        exact beq_eq_false_iff_ne.mpr hne
      rw [mimeTypeOf, this] at hm
      simp at hm
    · intro hq
      subst hq
      rfl
  · intro hq
    have hne : clampQuality q ≠ 100 := by rw [hcl]; omega
    have hfalse : isPngQ q = false := by
      unfold isPngQ
      exact beq_eq_false_iff_ne.mpr hne
    constructor
    · rw [mimeTypeOf, hfalse]
      rfl
    · rw [toBlobQualityArg, hfalse, hcl]
      simp

/-- Witness for the amended claim C7 at quality 50. -/
theorem claim_C7_amended_witness :
    (mimeTypeOf 50 = "image/png" ↔ (50 : Int) = 100) ∧
    ((50 : Int) ≠ 100 →
      mimeTypeOf 50 = "image/jpeg" ∧
      toBlobQualityArg 50 = some (((max (50 : Int) 10 : Int) : ℚ) / 100)) :=
  claim_C7_amended 50 (by norm_num) (by norm_num)

/-- Claim C8 is false as stated: batches are equal-size prefix slices of
`batchSize = cols * groupRows`, so 7 images with `cols = 3` can never
split into sheets of 3 and then 4 images; the default `groupRows = 50`
gives one batch of 7 (rows 3), `groupRows = 1` gives three batches of
3, 3, 1 and `groupRows = 2` gives two batches of 6 and 1. -/
theorem claim_C8_counterexample :
    batchPlan 3 50 7 = [(7, 3)] ∧
    batchPlan 3 50 7 ≠ [(3, 1), (4, 2)] ∧
    batchPlan 3 1 7 = [(3, 1), (3, 1), (1, 1)] ∧
    batchPlan 3 1 7 ≠ [(3, 1), (4, 2)] ∧
    batchPlan 3 2 7 = [(6, 2), (1, 1)] ∧
    batchPlan 3 2 7 ≠ [(3, 1), (4, 2)] := by
  refine ⟨by decide, by decide, by decide, by decide, by decide, by decide⟩

/-- Claim C8 as amended: with 7 images and `cols = 3`, the only
configuration producing exactly two batches is `groupRows = 2`
(`batchSize = 6`), whose sheets hold 6 and 1 images with row counts
`ceil(6/3) = 2` and `ceil(1/3) = 1`; no `groupRows` value yields sheets of
3 and 4 images, because every batch except the last is a full slice of
`batchSize` images. -/
theorem claim_C8_amended :
    batchPlan 3 2 7 = [(6, 2), (1, 1)] ∧
    ∀ g : Nat, batchPlan 3 g 7 ≠ [(3, 1), (4, 2)] := by
  refine ⟨by decide, ?_⟩
  intro g
  match g with
  | 0 => decide
  | 1 => decide
  | 2 => decide
  | (n + 3) =>
    have hbs : 0 < 3 * (n + 3) := by omega
    have hceil : ceilDiv 7 (3 * (n + 3)) = 1 := by
      unfold ceilDiv
      have e1 : 7 + 3 * (n + 3) - 1 = 6 + 3 * (n + 3) := by omega
      rw [e1, Nat.add_div_right _ hbs, Nat.div_eq_of_lt (by omega)]
    have htake : (List.range 7).take (3 * (n + 3)) = List.range 7 :=
      List.take_of_length_le (by simp; omega)
    unfold batchPlan chunksOf
    rw [List.length_range, hceil]
    have hr1 : List.range 1 = [0] := rfl
    rw [hr1]
    simp only [List.map_cons, List.map_nil, Nat.zero_mul, List.drop_zero]
    rw [htake]
    decide

/-- Claim C10: with aspect ratio `custom` the ratio computation never
divides by zero — a falsy (0, NaN, missing) `customW` is replaced by 1000
and a falsy `customH` by 1500 before dividing — and for positive
substituted values the result is a finite positive rational. -/
theorem claim_C10 (cw ch : JsVal) :
    jsOr ch 1500 ≠ 0 ∧
    getRatio "custom" cw ch = JsVal.num (jsOr cw 1000 / jsOr ch 1500) ∧
    ((cw = JsVal.num 0 ∨ cw = JsVal.nan ∨ cw = JsVal.undef) → jsOr cw 1000 = 1000) ∧
    ((ch = JsVal.num 0 ∨ ch = JsVal.nan ∨ ch = JsVal.undef) → jsOr ch 1500 = 1500) ∧
    (0 < jsOr cw 1000 → 0 < jsOr ch 1500 → 0 < jsOr cw 1000 / jsOr ch 1500) := by
  have hne : jsOr ch 1500 ≠ 0 := by
    cases ch with
    | num q =>
      simp only [jsOr]
      split_ifs with hq
      · norm_num
      · exact hq
    | nan => norm_num [jsOr]
    | undef => norm_num [jsOr]
  refine ⟨hne, ?_, ?_, ?_, ?_⟩
  · rw [getRatio, if_neg (by simp), jsDiv, if_neg hne]
  · rintro (hc | hc | hc) <;> subst hc <;> simp [jsOr]
  · rintro (hc | hc | hc) <;> subst hc <;> simp [jsOr]
  · intro h1 h2
    exact div_pos h1 h2

/-- Witness for claim C10: a zero width and a missing height fall back to
the 1000/1500 defaults and give the positive finite ratio 2/3. -/
theorem claim_C10_witness :
    jsOr (JsVal.num 0) 1000 = 1000 ∧
    jsOr JsVal.undef 1500 = 1500 ∧
    getRatio "custom" (JsVal.num 0) JsVal.undef
      = JsVal.num (jsOr (JsVal.num 0) 1000 / jsOr JsVal.undef 1500) ∧
    0 < jsOr (JsVal.num 0) 1000 / jsOr JsVal.undef 1500 :=
  ⟨(claim_C10 (JsVal.num 0) JsVal.undef).2.2.1 (Or.inl rfl),
   (claim_C10 (JsVal.num 0) JsVal.undef).2.2.2.1 (Or.inr (Or.inr rfl)),
   (claim_C10 (JsVal.num 0) JsVal.undef).2.1,
   (claim_C10 (JsVal.num 0) JsVal.undef).2.2.2.2 (by norm_num [jsOr]) (by norm_num [jsOr])⟩

/-- Claim C6 is false as stated: when the redaction mode is sticker and a
sticker URL is configured but the sticker image is not loaded and valid
(here: incomplete, zero natural width), the code draws no mark at all —
the sticker branch rejects it and the line fallback requires the sticker
object to be absent (`else if (!stickerImgObj)`). -/
theorem claim_C6_counterexample :
    maskCellDraw true true (some brokenSticker) "cross" "#FF3B30" 1 100 50 50 0 0 10 10
      = MaskDraw.nothing ∧
    MaskDraw.nothing ≠ MaskDraw.lineDraw "#FF3B30" (1 * ((10 : ℚ) / 500) * 5) "round"
      [⟨⟨0 + 10 * 0.2, 0 + 10 * 0.2⟩, ⟨0 + 10 * 0.8, 0 + 10 * 0.8⟩⟩,
       ⟨⟨0 + 10 * 0.8, 0 + 10 * 0.2⟩, ⟨0 + 10 * 0.2, 0 + 10 * 0.8⟩⟩] := by
  refine ⟨rfl, by simp⟩

/-- Claim C6 as amended: for a targeted cell with redaction active, a
diagonal mark (a cross of two diagonals for lineStyle `cross`, one
diagonal otherwise) with the configured color, width
`maskWidth * (rectW/500) * 5` and round caps is drawn when the mode is
`line`, and likewise in sticker mode when no sticker URL is configured at
all (so no sticker object exists); but when a sticker object exists and is
not loaded and valid, nothing is drawn. -/
theorem claim_C6_amended (load : String → ImgSt) (url : Option String)
    (lineStyle maskColor : String) (maskWidth ssz sx sy x y w h : ℚ) :
    (lineStyle = "cross" →
      maskCellDraw true true (stickerObjOf load (effectiveStickerUrl "line" url))
          lineStyle maskColor maskWidth ssz sx sy x y w h
        = MaskDraw.lineDraw maskColor (maskWidth * (w / 500) * 5) "round"
            [⟨⟨x + w * 0.2, y + h * 0.2⟩, ⟨x + w * 0.8, y + h * 0.8⟩⟩,
             ⟨⟨x + w * 0.8, y + h * 0.2⟩, ⟨x + w * 0.2, y + h * 0.8⟩⟩]) ∧
    (lineStyle ≠ "cross" →
      maskCellDraw true true (stickerObjOf load (effectiveStickerUrl "line" url))
          lineStyle maskColor maskWidth ssz sx sy x y w h
        = MaskDraw.lineDraw maskColor (maskWidth * (w / 500) * 5) "round"
            [⟨⟨x + w * 0.2, y + h * 0.8⟩, ⟨x + w * 0.8, y + h * 0.2⟩⟩]) ∧
    (effectiveStickerUrl "image" none = none) ∧
    (maskCellDraw true true (stickerObjOf load none)
          lineStyle maskColor maskWidth ssz sx sy x y w h
      = maskCellDraw true true (stickerObjOf load (effectiveStickerUrl "line" url))
          lineStyle maskColor maskWidth ssz sx sy x y w h) ∧
    (∀ s : ImgSt, ¬(s.complete = true ∧ 0 < s.naturalWidth) →
      maskCellDraw true true (some s) lineStyle maskColor maskWidth ssz sx sy x y w h
        = MaskDraw.nothing) := by
  have hurl : effectiveStickerUrl "line" url = none := by
    rw [effectiveStickerUrl, if_neg (by decide)]
  have hobj : stickerObjOf load (effectiveStickerUrl "line" url) = none := by
    rw [hurl]
    rfl
  refine ⟨?_, ?_, rfl, by rw [hobj]; rfl, ?_⟩
  · intro hl
    subst hl
    rw [hobj]
    rfl
  · intro hl
    rw [hobj]
    simp only [maskCellDraw, Bool.and_self, if_true]
    rw [if_neg hl]
  · intro s hs
    simp only [maskCellDraw, Bool.and_self, if_true]
    split_ifs with hv
    · exfalso
      apply hs
      constructor
      · exact (Bool.and_eq_true _ _).mp hv |>.1
      · have := (Bool.and_eq_true _ _).mp hv |>.2
        simpa using this
    · rfl

/-- Witness for the amended claim C6: line mode draws the cross mark, and
a configured but invalid sticker draws nothing. -/
theorem claim_C6_amended_witness :
    maskCellDraw true true (stickerObjOf (fun _ => brokenSticker) (effectiveStickerUrl "line" none))
        "cross" "red" 1 100 50 50 0 0 10 10
      = MaskDraw.lineDraw "red" (1 * ((10 : ℚ) / 500) * 5) "round"
          [⟨⟨0 + 10 * 0.2, 0 + 10 * 0.2⟩, ⟨0 + 10 * 0.8, 0 + 10 * 0.8⟩⟩,
           ⟨⟨0 + 10 * 0.8, 0 + 10 * 0.2⟩, ⟨0 + 10 * 0.2, 0 + 10 * 0.8⟩⟩] ∧
    maskCellDraw true true (some brokenSticker) "cross" "red" 1 100 50 50 0 0 10 10
      = MaskDraw.nothing :=
  ⟨(claim_C6_amended (fun _ => brokenSticker) none "cross" "red" 1 100 50 50 0 0 10 10).1 rfl,
   (claim_C6_amended (fun _ => brokenSticker) none "cross" "red" 1 100 50 50 0 0 10 10).2.2.2.2
     brokenSticker (by simp [brokenSticker])⟩

/-- Claim C9: acquisition tries the source up to 2 retries after the
initial attempt (it settles broken exactly when the first three attempts
all fail), every scheduled retry carries the fixed 200 ms delay (at most
two retries are ever scheduled), a broken or invalid image (zero natural
width or height, or not load-complete) renders as the fixed placeholder
(`#f0f0f0` fill with a `!` glyph) instead of raising, a valid image
renders cover-fit, and the remaining cells of the batch are still drawn. -/
theorem claim_C9 (ok : Nat → Bool) (x y w h : ℚ) :
    ((ok 0 = false ∧ ok 1 = false ∧ ok 2 = false) →
      loadImgRun ok 0 2 = (LoadResult.broken, [200, 200])) ∧
    ((loadImgRun ok 0 2).1 = LoadResult.broken →
      ok 0 = false ∧ ok 1 = false ∧ ok 2 = false) ∧
    (∀ d ∈ (loadImgRun ok 0 2).2, d = 200) ∧
    ((loadImgRun ok 0 2).2.length ≤ 2) ∧
    (∀ (st : ImgSt) (nh : Nat),
      renderCell (some (true, st)) nh x y w h = CellRender.placeholder "#f0f0f0" "!") ∧
    (∀ (bfl : Bool) (st : ImgSt) (nh : Nat),
      st.naturalWidth = 0 ∨ nh = 0 ∨ st.complete = false →
      renderCell (some (bfl, st)) nh x y w h = CellRender.placeholder "#f0f0f0" "!") ∧
    (renderCell none 0 x y w h = CellRender.placeholder "#f0f0f0" "!") ∧
    (∀ (st : ImgSt) (nh : Nat), st.naturalWidth ≠ 0 → nh ≠ 0 → st.complete = true →
      renderCell (some (false, st)) nh x y w h
        = CellRender.drawImage (coverFit x y w h st.imgW st.imgH)) ∧
    (∀ (T p : Nat) (imgs : List Nat),
      p + 2 * imgs.length ≤ T → (drawCells T p imgs).2 = imgs) := by
  refine ⟨?_, ?_, ?_, ?_, ?_, ?_, ?_, ?_, ?_⟩
  · rintro ⟨h0, h1, h2⟩
    simp [loadImgRun, h0, h1, h2]
  · intro hb
    cases h0 : ok 0 <;> cases h1 : ok 1 <;> cases h2 : ok 2 <;>
      simp [loadImgRun, h0, h1, h2] at hb ⊢
  · cases h0 : ok 0 <;> cases h1 : ok 1 <;> cases h2 : ok 2 <;>
      simp [loadImgRun, h0, h1, h2]
  · cases h0 : ok 0 <;> cases h1 : ok 1 <;> cases h2 : ok 2 <;>
      simp [loadImgRun, h0, h1, h2]
  · intro st nh
    simp [renderCell]
  · rintro bfl st nh (hc | hc | hc) <;> simp [renderCell, hc]
  · rfl
  · intro st nh hnw hnh hc
    simp [renderCell, hnw, hnh, hc]
  · intro T p imgs hT
    rw [drawCells_complete imgs T p hT]

/-- Witness for claim C9: a source failing every attempt settles broken
after two 200 ms retries, and a missing image renders the placeholder. -/
theorem claim_C9_witness :
    loadImgRun (fun _ => false) 0 2 = (LoadResult.broken, [200, 200]) ∧
    renderCell none 0 0 0 1 1 = CellRender.placeholder "#f0f0f0" "!" :=
  ⟨(claim_C9 (fun _ => false) 0 0 1 1).1 ⟨rfl, rfl, rfl⟩,
   (claim_C9 (fun _ => false) 0 0 1 1).2.2.2.2.2.2.1⟩

/-- Claim C3: cover-fit draws a relatively wide image at the cell height
and width `rectHeight * iRatio`, horizontally centered, otherwise at the
cell width and height `rectWidth / iRatio`, vertically centered; in both
cases the destination rectangle covers the whole cell (the clip to the
cell never leaves background visible) and preserves the source aspect
ratio. -/
theorem claim_C3 (x y w h imgW imgH : ℚ) (hw : 0 < w) (hh : 0 < h)
    (hiW : 0 < imgW) (hiH : 0 < imgH) :
    (imgW / imgH > w / h →
      coverFit x y w h imgW imgH
        = ⟨x - (h * (imgW / imgH) - w) / 2, y, h * (imgW / imgH), h⟩) ∧
    (¬ imgW / imgH > w / h →
      coverFit x y w h imgW imgH
        = ⟨x, y - (w / (imgW / imgH) - h) / 2, w, w / (imgW / imgH)⟩) ∧
    (coverFit x y w h imgW imgH).dx ≤ x ∧
    x + w ≤ (coverFit x y w h imgW imgH).dx + (coverFit x y w h imgW imgH).dw ∧
    (coverFit x y w h imgW imgH).dy ≤ y ∧
    y + h ≤ (coverFit x y w h imgW imgH).dy + (coverFit x y w h imgW imgH).dh ∧
    (coverFit x y w h imgW imgH).dw / (coverFit x y w h imgW imgH).dh = imgW / imgH := by
  have hiR : 0 < imgW / imgH := div_pos hiW hiH
  by_cases hc : imgW / imgH > w / h
  · have hkey : w < h * (imgW / imgH) := by
      have hlt := (div_lt_iff hh).mp hc
      linarith
    have hcf : coverFit x y w h imgW imgH
        = ⟨x - (h * (imgW / imgH) - w) / 2, y, h * (imgW / imgH), h⟩ := by
      simp only [coverFit]
      rw [if_pos hc]
    refine ⟨fun _ => hcf, fun hn => absurd hc hn, ?_, ?_, ?_, ?_, ?_⟩
    · rw [hcf]
      show x - (h * (imgW / imgH) - w) / 2 ≤ x
      linarith
    · rw [hcf]
      show x + w ≤ x - (h * (imgW / imgH) - w) / 2 + h * (imgW / imgH)
      linarith
    · rw [hcf]
    · rw [hcf]
    · rw [hcf]
      show h * (imgW / imgH) / h = imgW / imgH
      exact mul_div_cancel_left₀ _ (ne_of_gt hh)
  · have hle : imgW / imgH ≤ w / h := le_of_not_lt hc
    have hkey : h ≤ w / (imgW / imgH) := by
      rw [le_div_iff hiR]
      calc h * (imgW / imgH) ≤ h * (w / h) := by
            exact mul_le_mul_of_nonneg_left hle (le_of_lt hh)
        _ = w := by field_simp
    have hcf : coverFit x y w h imgW imgH
        = ⟨x, y - (w / (imgW / imgH) - h) / 2, w, w / (imgW / imgH)⟩ := by
      simp only [coverFit]
      rw [if_neg hc]
    refine ⟨fun hc2 => absurd hc2 hc, fun _ => hcf, ?_, ?_, ?_, ?_, ?_⟩
    · rw [hcf]
    · rw [hcf]
    · rw [hcf]
      show y - (w / (imgW / imgH) - h) / 2 ≤ y
      linarith
    · rw [hcf]
      show y + h ≤ y - (w / (imgW / imgH) - h) / 2 + w / (imgW / imgH)
      linarith
    · rw [hcf]
      show w / (w / (imgW / imgH)) = imgW / imgH
      have hwne : w ≠ 0 := ne_of_gt hw
      have hiRne : imgW / imgH ≠ 0 := ne_of_gt hiR
      field_simp
      ring

/-- Witness for claim C3 on a square cell and a 2:1 image. -/
theorem claim_C3_witness :
    (coverFit 0 0 1 1 2 1).dx ≤ 0 ∧
    (0 : ℚ) + 1 ≤ (coverFit 0 0 1 1 2 1).dx + (coverFit 0 0 1 1 2 1).dw ∧
    (coverFit 0 0 1 1 2 1).dw / (coverFit 0 0 1 1 2 1).dh = 2 / 1 := by
  have H := claim_C3 0 0 1 1 2 1 (by norm_num) (by norm_num) (by norm_num) (by norm_num)
  exact ⟨H.2.2.1, H.2.2.2.1, H.2.2.2.2.2.2⟩

/-- Claim C1 is false as stated: an encode failure (a null blob from
`toBlob`) does not abort the run — the failed sheet is skipped
(`if (blob) tempBlobs.push(blob)`) and the next batch is still encoded.
Here the encoder fails on the first sheet `[0, 1]`, yet the second sheet
`[2, 3]` is encoded and returned. -/
theorem claim_C1_counterexample :
    encFailFirst [0, 1] = none ∧
    runGeneration encFailFirst 1000 2 [0, 1, 2, 3] = [[2, 3]] := by
  refine ⟨rfl, by decide⟩

/-- Claim C1 as amended: when a sheet's encode yields no blob, that
sheet's artifact is silently skipped and the run continues with the
remaining batches; an uncancelled run returns the successful encodes of
all fully drawn sheets in order, with no error or completed-count
surfaced. -/
theorem claim_C1_amended {α β : Type _} (enc : List α → Option β) (bs T : Nat)
    (targets : List α) (h : cumPolls (chunksOf bs targets) < T) :
    runGeneration enc T bs targets = (chunksOf bs targets).filterMap enc ∧
    runGenerationSurfaced enc T bs targets = (chunksOf bs targets).filterMap enc := by
  have hc := runBatchesP_complete enc T (chunksOf bs targets) 0 (by omega)
  constructor
  · show (runBatchesP enc T 0 (chunksOf bs targets)).2 = _
    rw [hc]
  · simp only [runGenerationSurfaced]
    rw [hc]
    dsimp only
    rw [if_neg (by omega)]

/-- Witness for the amended claim C1: the first sheet's encode fails, the
second sheet is still encoded and returned. -/
theorem claim_C1_amended_witness :
    runGeneration encFailFirst 1000 2 [0, 1, 2, 3]
      = (chunksOf 2 [0, 1, 2, 3]).filterMap encFailFirst ∧
    runGenerationSurfaced encFailFirst 1000 2 [0, 1, 2, 3]
      = (chunksOf 2 [0, 1, 2, 3]).filterMap encFailFirst :=
  claim_C1_amended encFailFirst 2 1000 [0, 1, 2, 3] (by decide)

/-- Claim C4 is false as stated about the caller-visible result: with two
batches of two targets and cancellation first observed at the start of
batch 2 (poll 7), the loop has produced exactly the one artifact of the
fully drawn first sheet, but the code then skips
`setGeneratedBlobs(tempBlobs)` because the cancellation flag is set, so
the surfaced result is empty rather than the `k - 1 = 1` artifacts. -/
theorem claim_C4_counterexample :
    runBatches (fun s : List Nat => some s) 7 0 (chunksOf 2 [0, 1, 2, 3]) = [[0, 1]] ∧
    runGenerationSurfaced (fun s : List Nat => some s) 7 2 [0, 1, 2, 3] = [] := by
  refine ⟨by decide, by decide⟩

/-- Claim C4 as amended: if cancellation is first observed at one of
batch `k`'s polls (batch start, before a cell's acquisition, immediately
after acquisition, or before encoding), the loop stops there having
produced exactly the `k - 1` artifacts of the first `k - 1` batches, each
encoded from a fully drawn sheet — a partially drawn sheet is never
encoded — but the produced artifacts are then discarded rather than
surfaced: the caller-visible result is left empty. -/
theorem claim_C4_amended {α β : Type _} (enc : List α → β) (targets : List α)
    (bs T k : Nat) (hk1 : 1 ≤ k) (hk2 : k ≤ (chunksOf bs targets).length)
    (h1 : cumPolls ((chunksOf bs targets).take (k - 1)) ≤ T)
    (h2 : T < cumPolls ((chunksOf bs targets).take k)) :
    runGeneration (fun s => some (enc s)) T bs targets
      = ((chunksOf bs targets).take (k - 1)).map enc ∧
    (runGeneration (fun s => some (enc s)) T bs targets).length = k - 1 ∧
    runGenerationSurfaced (fun s => some (enc s)) T bs targets = [] := by
  have hc := runBatchesP_cancel (fun s => some (enc s)) T (chunksOf bs targets) 0 k hk1 hk2
    (by omega) (by omega)
  have hmap : ((chunksOf bs targets).take (k - 1)).filterMap (fun s => some (enc s))
      = ((chunksOf bs targets).take (k - 1)).map enc :=
    congrFun (List.filterMap_eq_map enc) _
  have hmain : runGeneration (fun s => some (enc s)) T bs targets
      = ((chunksOf bs targets).take (k - 1)).map enc := by
    show (runBatchesP (fun s => some (enc s)) T 0 (chunksOf bs targets)).2 = _
    rw [hc.1, hmap]
  refine ⟨hmain, ?_, ?_⟩
  · rw [hmain, List.length_map, List.length_take]
    omega
  · simp only [runGenerationSurfaced]
    rw [if_pos hc.2]

/-- Witness for the amended claim C4: four targets in two batches,
cancellation first observed at batch 2's start poll. -/
theorem claim_C4_amended_witness :
    runGeneration (fun s : List Nat => some s) 7 2 [0, 1, 2, 3] = [[0, 1]] ∧
    (runGeneration (fun s : List Nat => some s) 7 2 [0, 1, 2, 3]).length = 1 ∧
    runGenerationSurfaced (fun s : List Nat => some s) 7 2 [0, 1, 2, 3] = [] :=
  claim_C4_amended (fun s : List Nat => s) [0, 1, 2, 3] 2 7 2
    (by decide) (by decide) (by decide) (by decide)

/-- Claim C5: the repack pre-pass removes exactly the images at positions
`i` whose eventual global number `startNum + i` lies in the parsed mask
set, so the surviving count is `N` minus the number of such positions,
and over the subsequent run the surviving images are renumbered
contiguously from `startNum`. -/
theorem claim_C5 {α : Type _} (targets : List α) (startNum : Int) (mask : List Int)
    (bs : Nat) (hbs : 0 < bs) :
    (repackTargets targets startNum mask).length
      = targets.length
        - ((List.range targets.length).filter
            (fun i : Nat => mask.contains (startNum + (i : Int)))).length ∧
    runNumbers startNum bs (repackTargets targets startNum mask)
      = (List.range (repackTargets targets startNum mask).length).map
          (fun j : Nat => startNum + (j : Int)) := by
  constructor
  · have haux := enumFrom_filter_length
      (fun i => mask.contains (startNum + (i : Int))) targets 0
    rw [← List.range_eq_range'] at haux
    rw [repackTargets, List.length_map]
    rw [show targets.enum = targets.enumFrom 0 from rfl]
    omega
  · exact runNumbers_eq_fuel (repackTargets targets startNum mask).length
      (repackTargets targets startNum mask) startNum bs (le_refl _) hbs

/-- Witness for claim C5: four images starting at number 2 with mask
`{3, 9}` lose exactly the image at global number 3 and are renumbered
2, 3, 4. -/
theorem claim_C5_witness :
    (repackTargets ["a", "b", "c", "d"] 2 [3, 9]).length
      = (["a", "b", "c", "d"] : List String).length
        - ((List.range (["a", "b", "c", "d"] : List String).length).filter
            (fun i : Nat => List.contains [3, 9] (2 + (i : Int)))).length ∧
    runNumbers 2 2 (repackTargets ["a", "b", "c", "d"] 2 [3, 9])
      = (List.range (repackTargets ["a", "b", "c", "d"] 2 [3, 9]).length).map
          (fun j : Nat => 2 + (j : Int)) :=
  claim_C5 ["a", "b", "c", "d"] 2 [3, 9] 2 (by decide)
